import Mathlib

/-!
Verification of the vote-tallying server (src/server.js).

The server state holds, as in `VoteServer.setupServer`:
  - `clients`: the keys of the `Map` of connected clients (insertion order);
  - `votes`: the candidate → count `Map`, as an ordered association list;
  - `votedClients`: the `Set` of session ids that have voted (insertion order);
  - `candidates`: the fixed candidate list.
JavaScript `Map`/`Set` iteration order is insertion order; `Map.set` on an
existing key updates in place, otherwise appends; `Set.add` appends when the
element is missing; `delete` removes the element. The helpers below embed
exactly those semantics on lists.
-/

namespace VoteServer

/-- JavaScript `Set.add`: append if not already present (insertion order kept). -/
def setAdd (l : List String) (x : String) : List String :=
  if x ∈ l then l else l ++ [x]

/-- JavaScript `Set.delete` / `Map.delete`: remove the element with that key. -/
def setDelete (l : List String) (x : String) : List String :=
  l.filter (fun y => y != x)

/-- JavaScript `Map.set`: update the entry in place if the key exists, else append. -/
def mapSet : List (String × Nat) → String → Nat → List (String × Nat)
  | [], k, v => [(k, v)]
  | p :: m, k, v => if p.1 = k then (k, v) :: m else p :: mapSet m k v

/-- JavaScript `Map.get`: the value at the key, if present. -/
def mapGet : List (String × Nat) → String → Option Nat
  | [], _ => none
  | p :: m, k => if p.1 = k then some p.2 else mapGet m k

/-- A JSON value in the `candidate` field of a message: either a string, or
anything that is not a string (absent is modelled separately by `Option`). -/
inductive JVal where
  | jstr (s : String)
  | jother
deriving DecidableEq

/-- A parsed inbound message: its `type` field (none when absent) and its
`candidate` field (none when absent). -/
structure RawMsg where
  type : Option String
  candidate : Option JVal
deriving DecidableEq

/-- A server → client message, as built in server.js. -/
inductive SMsg where
  | welcome (clientId : String) (candidates : List String) (tally : List (String × Nat))
  | voteConfirmed (candidate : String)
  | tallyUpdate (tally : List (String × Nat)) (totalVotes : Nat)
  | error (message : String)
deriving DecidableEq

/-- The mutable server state set up in `setupServer`. -/
structure ServerState where
  clients : List String
  votes : List (String × Nat)
  votedClients : List String
  candidates : List String
deriving DecidableEq

/-- The hardcoded candidate list (server.js line 19). -/
def candidates0 : List String := ["Candidate A", "Candidate B", "Candidate C"]

/-- `initializeCandidates`: set count 0 for each candidate (server.js lines 25-29). -/
def initializeCandidates (cs : List String) : List (String × Nat) :=
  cs.foldl (fun m c => mapSet m c 0) []

/-- The state after `setupServer` with the hardcoded candidate list. -/
def initialState : ServerState :=
  { clients := [], votes := initializeCandidates candidates0,
    votedClients := [], candidates := candidates0 }

/-- `getTally`: the entries of the votes map, in insertion order (lines 170-175). -/
def getTally (st : ServerState) : List (String × Nat) := st.votes

/-- `this.candidates.includes(candidate)` on the raw candidate field: true only
for a string that is a member of the candidate list. -/
def candidateIncludes (cs : List String) : Option JVal → Bool
  | some (JVal.jstr s) => decide (s ∈ cs)
  | _ => false

/-- `broadcastTally` (lines 153-168): send the tally message to every client in
the registry.  Delivery is modelled as the list of (target, message) pairs. -/
def broadcastTally (st : ServerState) : List (String × SMsg) :=
  st.clients.map (fun cid => (cid, SMsg.tallyUpdate (getTally st) st.votedClients.length))

/-- `handleVote` (lines 107-140). Returns the new state and the sent messages
in order.  The accept branch reads `this.votes.get(candidate)`; the candidate
is always a key of the map there (it passed the `includes` check and every
candidate is initialised), so the `getD 0` default is never taken. -/
def handleVote (st : ServerState) (clientId : String) (msg : RawMsg) :
    ServerState × List (String × SMsg) :=
  if clientId ∈ st.votedClients then
    (st, [(clientId, SMsg.error "You have already voted!")])
  else
    match msg.candidate with
    | some (JVal.jstr c) =>
      if c ∈ st.candidates then
        let newVotes := mapSet st.votes c ((mapGet st.votes c).getD 0 + 1)
        let st2 : ServerState :=
          { st with votes := newVotes, votedClients := setAdd st.votedClients clientId }
        (st2, (clientId, SMsg.voteConfirmed c) :: broadcastTally st2)
      else
        (st, [(clientId, SMsg.error "Invalid candidate selected!")])
    | _ => (st, [(clientId, SMsg.error "Invalid candidate selected!")])

/-- `sendTallyToClient` (lines 142-151): send the tally to the client if it is
in the registry, otherwise do nothing. -/
def sendTallyToClient (st : ServerState) (clientId : String) : List (String × SMsg) :=
  if clientId ∈ st.clients then
    [(clientId, SMsg.tallyUpdate (getTally st) st.votedClients.length)]
  else []

/-- `handleMessage` (lines 88-105): the `switch` on `message.type`. -/
def handleMessage (st : ServerState) (clientId : String) (msg : RawMsg) :
    ServerState × List (String × SMsg) :=
  if msg.type = some "vote" then handleVote st clientId msg
  else if msg.type = some "request_tally" then (st, sendTallyToClient st clientId)
  else (st, [(clientId, SMsg.error "Unknown message type")])

/-- The connection handler (lines 46-59): register the client, send welcome. -/
def onConnect (st : ServerState) (clientId : String) : ServerState × List (String × SMsg) :=
  let st2 : ServerState := { st with clients := setAdd st.clients clientId }
  (st2, [(clientId, SMsg.welcome clientId st2.candidates (getTally st2))])

/-- The close handler (lines 76-80): remove the client from the registry and
from the voted set. -/
def onClose (st : ServerState) (clientId : String) : ServerState × List (String × SMsg) :=
  ({ st with clients := setDelete st.clients clientId,
             votedClients := setDelete st.votedClients clientId }, [])

/-- The message handler (lines 62-73): a frame that fails to parse (`none`)
gets an error reply; a parsed message goes to `handleMessage`. -/
def onMessage (st : ServerState) (clientId : String) :
    Option RawMsg → ServerState × List (String × SMsg)
  | none => (st, [(clientId, SMsg.error "Invalid message format")])
  | some msg => handleMessage st clientId msg

/-- A transport event delivered to the server: a new connection, an inbound
frame from a connected client (`none` = undecodable), or a disconnect. -/
inductive Event where
  | connect (id : String)
  | message (id : String) (frame : Option RawMsg)
  | close (id : String)
deriving DecidableEq

/-- One event step of the server. -/
def step (st : ServerState) : Event → ServerState × List (String × SMsg)
  | Event.connect id => onConnect st id
  | Event.message id frame => onMessage st id frame
  | Event.close id => onClose st id

/-- The session id an event concerns. -/
def eventId : Event → String
  | Event.connect id => id
  | Event.message id _ => id
  | Event.close id => id

/-- Transport well-formedness of one event: a connect carries a fresh id
(uuids never repeat within the process), and message/close events only come
from currently connected clients (the `ws` callbacks of a live socket). -/
def eventOk (used : List String) (st : ServerState) : Event → Bool
  | Event.connect id => decide (id ∉ used)
  | Event.message id _ => decide (id ∈ st.clients)
  | Event.close id => decide (id ∈ st.clients)

/-- Well-formedness of an event trace from a state, accumulating used ids. -/
def wfFrom : List String → ServerState → List Event → Bool
  | _, _, [] => true
  | used, st, e :: es => eventOk used st e && wfFrom (eventId e :: used) (step st e).1 es

/-- A well-formed trace from the freshly set-up server. -/
def wfTrace (es : List Event) : Bool := wfFrom [] initialState es

/-- Run a trace, returning the final state. -/
def runState : ServerState → List Event → ServerState
  | st, [] => st
  | st, e :: es => runState (step st e).1 es

/-- Whether an event is an accepted vote in the given state: a `vote` message
from a session that has not voted, naming a configured candidate — exactly
the condition under which `handleVote` records the vote (`markVoted` true). -/
def acceptedVote (st : ServerState) : Event → Bool
  | Event.message id (some msg) =>
      decide (msg.type = some "vote") && decide (id ∉ st.votedClients) &&
        candidateIncludes st.candidates msg.candidate
  | _ => false

/-- The (zero- or one-element) list of session ids whose vote this event records. -/
def acceptIds (st : ServerState) (e : Event) : List String :=
  if acceptedVote st e then [eventId e] else []

/-- The session ids of all accepted votes along a trace, in order. -/
def runAccepted : ServerState → List Event → List String
  | _, [] => []
  | st, e :: es => acceptIds st e ++ runAccepted (step st e).1 es

/-- Ids marked used after a trace. -/
def usedAfter : List String → List Event → List String
  | used, [] => used
  | used, e :: es => usedAfter (eventId e :: used) es

/-- Sum of all candidate counts in a tally. -/
def tallySum (m : List (String × Nat)) : Nat := (m.map Prod.snd).sum

theorem mem_setAdd {l : List String} {x y : String} :
    y ∈ setAdd l x ↔ y ∈ l ∨ y = x := by
  unfold setAdd
  split
  · constructor
    · exact Or.inl
    · rintro (h | rfl) <;> assumption
  · simp [List.mem_append]

theorem nodup_setAdd {l : List String} {x : String} (h : l.Nodup) :
    (setAdd l x).Nodup := by
  unfold setAdd
  split
  · exact h
  · simpa [List.nodup_append] using ⟨h, by assumption⟩

theorem mem_setDelete {l : List String} {x y : String} :
    y ∈ setDelete l x ↔ y ∈ l ∧ y ≠ x := by
  simp [setDelete, List.mem_filter]

theorem nodup_setDelete {l : List String} {x : String} (h : l.Nodup) :
    (setDelete l x).Nodup :=
  h.filter _

theorem mapGet_mapSet_self (m : List (String × Nat)) (k : String) (v : Nat) :
    mapGet (mapSet m k v) k = some v := by
  induction m with
  | nil => simp [mapSet, mapGet]
  | cons p m ih =>
    by_cases h : p.1 = k
    · simp [mapSet, mapGet, h]
    · simp [mapSet, mapGet, h, ih]

theorem mapGet_mapSet_ne (m : List (String × Nat)) {k k' : String} (v : Nat)
    (h : k' ≠ k) : mapGet (mapSet m k v) k' = mapGet m k' := by
  have h' : k ≠ k' := Ne.symm h
  induction m with
  | nil => simp [mapSet, mapGet, h']
  | cons p m ih =>
    by_cases hp : p.1 = k
    · simp [mapSet, mapGet, hp, h']
    · simp [mapSet, mapGet, hp, ih]

theorem keys_mapSet_mem (m : List (String × Nat)) {k : String} (v : Nat)
    (h : k ∈ m.map Prod.fst) : (mapSet m k v).map Prod.fst = m.map Prod.fst := by
  induction m with
  | nil => simp at h
  | cons p m ih =>
    by_cases hp : p.1 = k
    · simp [mapSet, hp]
    · have hk : k ∈ m.map Prod.fst := by
        rcases List.mem_map.mp h with ⟨q, hq, hq1⟩
        rcases List.mem_cons.mp hq with rfl | hq'
        · exact absurd hq1 hp
        · exact List.mem_map.mpr ⟨q, hq', hq1⟩
      simp [mapSet, hp, ih hk]

theorem mapGet_isSome_of_mem_keys {m : List (String × Nat)} {k : String}
    (h : k ∈ m.map Prod.fst) : ∃ w, mapGet m k = some w := by
  induction m with
  | nil => simp at h
  | cons p m ih =>
    by_cases hp : p.1 = k
    · exact ⟨p.2, by simp [mapGet, hp]⟩
    · have hk : k ∈ m.map Prod.fst := by
        rcases List.mem_map.mp h with ⟨q, hq, hq1⟩
        rcases List.mem_cons.mp hq with rfl | hq'
        · exact absurd hq1 hp
        · exact List.mem_map.mpr ⟨q, hq', hq1⟩
      simpa [mapGet, hp] using ih hk

theorem tallySum_mapSet {m : List (String × Nat)} {k : String} {w : Nat} (v : Nat)
    (h : mapGet m k = some w) : tallySum (mapSet m k v) + w = tallySum m + v := by
  induction m with
  | nil => simp [mapGet] at h
  | cons p m ih =>
    by_cases hp : p.1 = k
    · rw [mapGet, if_pos hp] at h
      have hw : p.2 = w := Option.some.inj h
      subst hw
      simp only [mapSet, if_pos hp, tallySum, List.map_cons, List.sum_cons]
      omega
    · rw [mapGet, if_neg hp] at h
      have hih := ih h
      simp only [mapSet, if_neg hp, tallySum, List.map_cons, List.sum_cons]
      simp only [tallySum] at hih
      omega

theorem tallySum_mapSet_inc {m : List (String × Nat)} {k : String}
    (h : k ∈ m.map Prod.fst) :
    tallySum (mapSet m k ((mapGet m k).getD 0 + 1)) = tallySum m + 1 := by
  rcases mapGet_isSome_of_mem_keys h with ⟨w, hw⟩
  rw [hw]
  have hsum := tallySum_mapSet (w := w) ((some w).getD 0 + 1) hw
  simp only [Option.getD_some] at hsum ⊢
  omega

/-- The run invariant, relative to the ids `used` so far and the list `acc` of
sessions whose vote has been accepted so far: the candidate list and the keys
of the votes map are fixed; the tally total equals the number of accepted
votes; accepted sessions are pairwise distinct; and the voted set holds
exactly the accepted sessions that are still connected. -/
structure Inv (used acc : List String) (st : ServerState) : Prop where
  cands : st.candidates = candidates0
  keys : st.votes.map Prod.fst = candidates0
  sum : tallySum st.votes = acc.length
  accNodup : acc.Nodup
  clientsNodup : st.clients.Nodup
  votedNodup : st.votedClients.Nodup
  votedIff : ∀ x, x ∈ st.votedClients ↔ x ∈ acc ∧ x ∈ st.clients
  accUsed : ∀ x ∈ acc, x ∈ used
  clientsUsed : ∀ x ∈ st.clients, x ∈ used

theorem inv_init : Inv [] [] initialState := by
  refine ⟨rfl, by decide, by decide, List.nodup_nil, List.nodup_nil, List.nodup_nil,
    ?_, ?_, ?_⟩ <;> simp [initialState]

theorem Inv.weaken {used acc : List String} {st : ServerState}
    (h : Inv used acc st) (y : String) : Inv (y :: used) acc st :=
  { h with
    accUsed := fun x hx => List.mem_cons_of_mem y (h.accUsed x hx)
    clientsUsed := fun x hx => List.mem_cons_of_mem y (h.clientsUsed x hx) }

theorem inv_connect {used acc : List String} {st : ServerState} {id : String}
    (h : Inv used acc st) (hid : id ∉ used) :
    Inv (id :: used) acc (onConnect st id).1 := by
  have hidacc : id ∉ acc := fun hx => hid (h.accUsed id hx)
  simp only [onConnect]
  refine ⟨h.cands, h.keys, h.sum, h.accNodup, nodup_setAdd h.clientsNodup,
    h.votedNodup, ?_, ?_, ?_⟩
  · intro x
    rw [show ({ st with clients := setAdd st.clients id } : ServerState).votedClients
          = st.votedClients from rfl, h.votedIff x]
    constructor
    · rintro ⟨hxa, hxc⟩
      exact ⟨hxa, mem_setAdd.mpr (Or.inl hxc)⟩
    · rintro ⟨hxa, hxc⟩
      rcases mem_setAdd.mp hxc with hxc' | rfl
      · exact ⟨hxa, hxc'⟩
      · exact absurd hxa hidacc
  · exact fun x hx => List.mem_cons_of_mem id (h.accUsed x hx)
  · intro x hx
    rcases mem_setAdd.mp hx with hx' | rfl
    · exact List.mem_cons_of_mem id (h.clientsUsed x hx')
    · simp

theorem inv_close {used acc : List String} {st : ServerState} {id : String}
    (h : Inv used acc st) : Inv (id :: used) acc (onClose st id).1 := by
  simp only [onClose]
  refine ⟨h.cands, h.keys, h.sum, h.accNodup, nodup_setDelete h.clientsNodup,
    nodup_setDelete h.votedNodup, ?_, ?_, ?_⟩
  · intro x
    rw [show ({ st with clients := setDelete st.clients id,
                        votedClients := setDelete st.votedClients id }
          : ServerState).votedClients = setDelete st.votedClients id from rfl,
        mem_setDelete, mem_setDelete, h.votedIff x]
    constructor
    · rintro ⟨⟨hxa, hxc⟩, hxid⟩
      exact ⟨hxa, hxc, hxid⟩
    · rintro ⟨hxa, hxc, hxid⟩
      exact ⟨⟨hxa, hxc⟩, hxid⟩
  · exact fun x hx => List.mem_cons_of_mem id (h.accUsed x hx)
  · intro x hx
    exact List.mem_cons_of_mem id (h.clientsUsed x (mem_setDelete.mp hx).1)

theorem inv_accept {used acc : List String} {st : ServerState} {id c : String}
    (h : Inv used acc st) (hcl : id ∈ st.clients) (hnv : id ∉ st.votedClients)
    (hc : c ∈ st.candidates) :
    Inv (id :: used) (acc ++ [id])
      { st with votes := mapSet st.votes c ((mapGet st.votes c).getD 0 + 1),
                votedClients := setAdd st.votedClients id } := by
  have hck : c ∈ st.votes.map Prod.fst := by rw [h.keys, ← h.cands]; exact hc
  have hidacc : id ∉ acc := fun hx => hnv ((h.votedIff id).mpr ⟨hx, hcl⟩)
  refine ⟨h.cands, ?_, ?_, ?_, h.clientsNodup, nodup_setAdd h.votedNodup, ?_, ?_, ?_⟩
  · rw [show ({ st with votes := mapSet st.votes c ((mapGet st.votes c).getD 0 + 1),
                        votedClients := setAdd st.votedClients id }
          : ServerState).votes = mapSet st.votes c ((mapGet st.votes c).getD 0 + 1)
          from rfl, keys_mapSet_mem _ _ hck]
    exact h.keys
  · show tallySum (mapSet st.votes c ((mapGet st.votes c).getD 0 + 1)) = _
    rw [tallySum_mapSet_inc hck, h.sum]
    simp
  · rw [List.nodup_append]
    exact ⟨h.accNodup, List.nodup_singleton id, by simpa using hidacc⟩
  · intro x
    show x ∈ setAdd st.votedClients id ↔ _
    rw [mem_setAdd]
    constructor
    · rintro (hx | rfl)
      · rcases (h.votedIff x).mp hx with ⟨hxa, hxc⟩
        exact ⟨List.mem_append_left _ hxa, hxc⟩
      · exact ⟨List.mem_append_right _ (by simp), hcl⟩
    · rintro ⟨hxa, hxc⟩
      rcases List.mem_append.mp hxa with hxa' | hxa'
      · exact Or.inl ((h.votedIff x).mpr ⟨hxa', hxc⟩)
      · exact Or.inr (List.mem_singleton.mp hxa')
  · intro x hx
    rcases List.mem_append.mp hx with hx' | hx'
    · exact List.mem_cons_of_mem id (h.accUsed x hx')
    · rw [List.mem_singleton.mp hx']
      exact List.mem_cons_self id used
  · exact fun x hx => List.mem_cons_of_mem id (h.clientsUsed x hx)

theorem inv_step {used acc : List String} {st : ServerState} (e : Event)
    (h : Inv used acc st) (he : eventOk used st e = true) :
    Inv (eventId e :: used) (acc ++ acceptIds st e) (step st e).1 := by
  cases e with
  | connect id =>
    have hid : id ∉ used := of_decide_eq_true he
    rw [show acceptIds st (Event.connect id) = [] from rfl, List.append_nil]
    exact inv_connect h hid
  | close id =>
    rw [show acceptIds st (Event.close id) = [] from rfl, List.append_nil]
    exact inv_close h
  | message id frame =>
    have hcl : id ∈ st.clients := of_decide_eq_true he
    cases frame with
    | none =>
      rw [show acceptIds st (Event.message id none) = [] from rfl, List.append_nil]
      exact h.weaken id
    | some msg =>
      by_cases hty : msg.type = some "vote"
      · by_cases hv : id ∈ st.votedClients
        · have hstep : (step st (Event.message id (some msg))).1 = st := by
            simp [step, onMessage, handleMessage, hty, handleVote, hv]
          have hacc : acceptIds st (Event.message id (some msg)) = [] := by
            simp [acceptIds, acceptedVote, hv]
          rw [hstep, hacc, List.append_nil]
          exact h.weaken id
        · cases hcand : msg.candidate with
          | none =>
            have hstep : (step st (Event.message id (some msg))).1 = st := by
              simp [step, onMessage, handleMessage, hty, handleVote, hv, hcand]
            have hacc : acceptIds st (Event.message id (some msg)) = [] := by
              simp [acceptIds, acceptedVote, hcand, candidateIncludes]
            rw [hstep, hacc, List.append_nil]
            exact h.weaken id
          | some jv =>
            cases jv with
            | jother =>
              have hstep : (step st (Event.message id (some msg))).1 = st := by
                simp [step, onMessage, handleMessage, hty, handleVote, hv, hcand]
              have hacc : acceptIds st (Event.message id (some msg)) = [] := by
                simp [acceptIds, acceptedVote, hcand, candidateIncludes]
              rw [hstep, hacc, List.append_nil]
              exact h.weaken id
            | jstr c =>
              by_cases hc : c ∈ st.candidates
              · have hstep : (step st (Event.message id (some msg))).1 =
                    { st with
                      votes := mapSet st.votes c ((mapGet st.votes c).getD 0 + 1),
                      votedClients := setAdd st.votedClients id } := by
                  simp [step, onMessage, handleMessage, hty, handleVote, hv, hcand, hc]
                have hacc : acceptIds st (Event.message id (some msg)) = [id] := by
                  simp [acceptIds, acceptedVote, hty, hv, hcand, candidateIncludes, hc,
                    eventId]
                rw [hstep, hacc]
                exact inv_accept h hcl hv hc
              · have hstep : (step st (Event.message id (some msg))).1 = st := by
                  simp [step, onMessage, handleMessage, hty, handleVote, hv, hcand, hc]
                have hacc : acceptIds st (Event.message id (some msg)) = [] := by
                  simp [acceptIds, acceptedVote, hcand, candidateIncludes, hc]
                rw [hstep, hacc, List.append_nil]
                exact h.weaken id
      · have hstep : (step st (Event.message id (some msg))).1 = st := by
          simp only [step, onMessage, handleMessage, if_neg hty]
          split <;> rfl
        have hacc : acceptIds st (Event.message id (some msg)) = [] := by
          simp [acceptIds, acceptedVote, hty]
        rw [hstep, hacc, List.append_nil]
        exact h.weaken id

theorem inv_run : ∀ (es : List Event) (used acc : List String) (st : ServerState),
    Inv used acc st → wfFrom used st es = true →
    Inv (usedAfter used es) (acc ++ runAccepted st es) (runState st es)
  | [], used, acc, st, h, _ => by simpa [usedAfter, runAccepted, runState] using h
  | e :: es, used, acc, st, h, hwf => by
    rw [wfFrom, Bool.and_eq_true] at hwf
    have h1 := inv_step e h hwf.1
    have h2 := inv_run es (eventId e :: used) (acc ++ acceptIds st e) (step st e).1 h1 hwf.2
    simpa [usedAfter, runAccepted, runState, List.append_assoc] using h2

/-- The invariant established along every well-formed trace from startup. -/
theorem inv_trace (es : List Event) (h : wfTrace es = true) :
    Inv (usedAfter [] es) (runAccepted initialState es) (runState initialState es) := by
  have := inv_run es [] [] initialState inv_init h
  simpa using this

/-- A concrete well-formed trace: session a connects, casts an accepted vote
for Candidate B, then disconnects. -/
def voteDisconnectTrace : List Event :=
  [Event.connect "a",
   Event.message "a" (some (RawMsg.mk (some "vote") (some (JVal.jstr "Candidate B")))),
   Event.close "a"]

/-- The state right after a single session a has connected. -/
def stOneClient : ServerState := (onConnect initialState "a").1

/-- A small concrete state used to instantiate frame-condition theorems. -/
def stSmall : ServerState :=
  { clients := ["a", "b"], votes := [("X", 2), ("Y", 5)],
    votedClients := ["b"], candidates := ["X", "Y"] }

/-- Claim C1 (counterexample): on the well-formed trace where session a
connects, has its vote accepted and then disconnects, exactly one session's
vote was accepted (a, with one vote attributed to it in the tally), yet the
voted-set is empty: a is not in the voted-set although a vote is attributed
to it, and totalVotes — the size of the voted-set — is 0, not 1. -/
theorem votedSet_invariant_fails_after_disconnect :
    wfTrace voteDisconnectTrace = true ∧
    runAccepted initialState voteDisconnectTrace = ["a"] ∧
    (runState initialState voteDisconnectTrace).votedClients = [] ∧
    tallySum (runState initialState voteDisconnectTrace).votes = 1 := by decide

/-- Claim C1 (amended): in every reachable server state, a session identifier
is in the voted-set iff its vote was accepted and it has not disconnected
since (it is still in the client registry); consequently the totalVotes field
(the size of the voted-set) equals the number of still-connected sessions
whose vote was accepted, not the number of all accepted sessions. -/
theorem votedSet_tracks_connected_accepted (es : List Event)
    (h : wfTrace es = true) :
    (∀ x, x ∈ (runState initialState es).votedClients ↔
        x ∈ runAccepted initialState es ∧ x ∈ (runState initialState es).clients) ∧
    (runState initialState es).votedClients.length =
      ((runAccepted initialState es).filter
        (fun a => decide (a ∈ (runState initialState es).clients))).length := by
  have hi := inv_trace es h
  refine ⟨hi.votedIff, ?_⟩
  have hnd2 : ((runAccepted initialState es).filter
      (fun a => decide (a ∈ (runState initialState es).clients))).Nodup :=
    hi.accNodup.filter _
  have hperm : List.Perm (runState initialState es).votedClients
      ((runAccepted initialState es).filter
        (fun a => decide (a ∈ (runState initialState es).clients))) := by
    rw [List.perm_ext_iff_of_nodup hi.votedNodup hnd2]
    intro x
    rw [List.mem_filter]
    simpa using hi.votedIff x
  exact hperm.length_eq

theorem votedSet_tracks_connected_accepted_witness :
    (∀ x, x ∈ (runState initialState voteDisconnectTrace).votedClients ↔
        x ∈ runAccepted initialState voteDisconnectTrace ∧
        x ∈ (runState initialState voteDisconnectTrace).clients) ∧
    (runState initialState voteDisconnectTrace).votedClients.length =
      ((runAccepted initialState voteDisconnectTrace).filter
        (fun a => decide (a ∈ (runState initialState voteDisconnectTrace).clients))).length :=
  votedSet_tracks_connected_accepted voteDisconnectTrace (by decide)

/-- Claim C2: along every well-formed trace, the sum of all candidate counts
equals the number of distinct sessions whose vote was accepted (the accepted
sessions are pairwise distinct, so their count is their number); and a
disconnect never changes any candidate count, so the tally outlives the
voter's session. -/
theorem tally_sum_counts_accepted (es : List Event) (h : wfTrace es = true) :
    tallySum (runState initialState es).votes =
      (runAccepted initialState es).length ∧
    (runAccepted initialState es).Nodup ∧
    (∀ (st : ServerState) (id : String),
      ((step st (Event.close id)).1).votes = st.votes) := by
  have hi := inv_trace es h
  exact ⟨hi.sum, hi.accNodup, fun st id => rfl⟩

theorem tally_sum_counts_accepted_witness :
    tallySum (runState initialState voteDisconnectTrace).votes =
      (runAccepted initialState voteDisconnectTrace).length ∧
    (runAccepted initialState voteDisconnectTrace).Nodup ∧
    (∀ (st : ServerState) (id : String),
      ((step st (Event.close id)).1).votes = st.votes) :=
  tally_sum_counts_accepted voteDisconnectTrace (by decide)

/-- Claim C3: a rejected vote is side-effect free: when the sender has already
voted, or when the candidate field does not pass the `includes` check, the
state is returned unchanged (no count changes, no voted flag set) and the only
output is the corresponding error reply to the sender (no broadcast). -/
theorem rejected_vote_side_effect_free (st : ServerState) (id : String)
    (msg : RawMsg)
    (h : id ∈ st.votedClients ∨ candidateIncludes st.candidates msg.candidate = false) :
    handleVote st id msg =
      (st, [(id, SMsg.error
        (if id ∈ st.votedClients then "You have already voted!"
         else "Invalid candidate selected!"))]) := by
  by_cases hv : id ∈ st.votedClients
  · simp [handleVote, hv]
  · have hci : candidateIncludes st.candidates msg.candidate = false := h.resolve_left hv
    rw [if_neg hv]
    cases hcand : msg.candidate with
    | none => simp [handleVote, hv, hcand]
    | some jv =>
      cases jv with
      | jstr c =>
        have hc : c ∉ st.candidates := by
          rw [hcand] at hci
          simpa [candidateIncludes] using hci
        simp [handleVote, hv, hcand, hc]
      | jother => simp [handleVote, hv, hcand]

theorem rejected_vote_side_effect_free_witness :
    handleVote stOneClient "a"
        (RawMsg.mk (some "vote") (some (JVal.jstr "Candidate Z"))) =
      (stOneClient, [("a", SMsg.error
        (if "a" ∈ stOneClient.votedClients then "You have already voted!"
         else "Invalid candidate selected!"))]) :=
  rejected_vote_side_effect_free stOneClient "a"
    (RawMsg.mk (some "vote") (some (JVal.jstr "Candidate Z"))) (Or.inr (by decide))

/-- Claim C4: an accepted vote (sender not yet voted, candidate in the
configured list) produces exactly the new state whose votes map has that
candidate set to its old count plus one and whose voted set gains the sender,
and the outputs are the `vote_confirmed` reply to the voter followed by the
`tally_update` broadcast (new tally, new totalVotes) to every registered
session; moreover that update changes no other candidate's count and no other
session's voted flag. -/
theorem accepted_vote_effects (st : ServerState) (id c : String)
    (hid : id ∉ st.votedClients) (hc : c ∈ st.candidates) :
    handleMessage st id (RawMsg.mk (some "vote") (some (JVal.jstr c))) =
      ({ st with votes := mapSet st.votes c ((mapGet st.votes c).getD 0 + 1),
                 votedClients := setAdd st.votedClients id },
       (id, SMsg.voteConfirmed c) ::
         st.clients.map (fun cid =>
           (cid, SMsg.tallyUpdate
             (mapSet st.votes c ((mapGet st.votes c).getD 0 + 1))
             (setAdd st.votedClients id).length))) ∧
    mapGet (mapSet st.votes c ((mapGet st.votes c).getD 0 + 1)) c =
      some ((mapGet st.votes c).getD 0 + 1) ∧
    (∀ k, k ≠ c →
      mapGet (mapSet st.votes c ((mapGet st.votes c).getD 0 + 1)) k =
        mapGet st.votes k) ∧
    (∀ x, x ≠ id → (x ∈ setAdd st.votedClients id ↔ x ∈ st.votedClients)) ∧
    id ∈ setAdd st.votedClients id := by
  refine ⟨?_, mapGet_mapSet_self _ _ _, fun k hk => mapGet_mapSet_ne _ _ hk, ?_, ?_⟩
  · simp [handleMessage, handleVote, hid, hc, broadcastTally, getTally]
  · intro x hx
    rw [mem_setAdd]
    exact ⟨fun hx' => hx'.resolve_right hx, Or.inl⟩
  · exact mem_setAdd.mpr (Or.inr rfl)

theorem accepted_vote_effects_witness :
    handleMessage stSmall "a" (RawMsg.mk (some "vote") (some (JVal.jstr "X"))) =
      ({ stSmall with
           votes := mapSet stSmall.votes "X" ((mapGet stSmall.votes "X").getD 0 + 1),
           votedClients := setAdd stSmall.votedClients "a" },
       ("a", SMsg.voteConfirmed "X") ::
         stSmall.clients.map (fun cid =>
           (cid, SMsg.tallyUpdate
             (mapSet stSmall.votes "X" ((mapGet stSmall.votes "X").getD 0 + 1))
             (setAdd stSmall.votedClients "a").length))) ∧
    mapGet (mapSet stSmall.votes "X" ((mapGet stSmall.votes "X").getD 0 + 1)) "X" =
      some ((mapGet stSmall.votes "X").getD 0 + 1) ∧
    (∀ k, k ≠ "X" →
      mapGet (mapSet stSmall.votes "X" ((mapGet stSmall.votes "X").getD 0 + 1)) k =
        mapGet stSmall.votes k) ∧
    (∀ x, x ≠ "a" → (x ∈ setAdd stSmall.votedClients "a" ↔ x ∈ stSmall.votedClients)) ∧
    "a" ∈ setAdd stSmall.votedClients "a" :=
  accepted_vote_effects stSmall "a" "X" (by decide) (by decide)

/-- Claim C5 (counterexample): a `vote` whose candidate field is absent or a
non-string receives exactly the same reply as a vote for an unknown candidate
string — the error "Invalid candidate selected!" — so the code does not give
malformed candidate fields an error class distinct from InvalidCandidate. -/
theorem malformed_candidate_same_as_invalid :
    handleMessage stOneClient "a" (RawMsg.mk (some "vote") none) =
      (stOneClient, [("a", SMsg.error "Invalid candidate selected!")]) ∧
    handleMessage stOneClient "a" (RawMsg.mk (some "vote") (some JVal.jother)) =
      (stOneClient, [("a", SMsg.error "Invalid candidate selected!")]) ∧
    handleMessage stOneClient "a"
        (RawMsg.mk (some "vote") (some (JVal.jstr "Candidate Z"))) =
      (stOneClient, [("a", SMsg.error "Invalid candidate selected!")]) := by decide

/-- Claim C5 (amended): a `vote` message whose candidate field is absent or
not a string is rejected, for a sender that has not yet voted, with the same
"Invalid candidate selected!" error used for unknown candidates — not with a
distinct MalformedMessage class — and with no state change. -/
theorem malformed_candidate_rejected_as_invalid (st : ServerState) (id : String)
    (cand : Option JVal) (hid : id ∉ st.votedClients)
    (hcand : cand = none ∨ cand = some JVal.jother) :
    handleMessage st id (RawMsg.mk (some "vote") cand) =
      (st, [(id, SMsg.error "Invalid candidate selected!")]) := by
  rcases hcand with rfl | rfl <;> simp [handleMessage, handleVote, hid]

theorem malformed_candidate_rejected_as_invalid_witness :
    handleMessage stOneClient "a" (RawMsg.mk (some "vote") none) =
      (stOneClient, [("a", SMsg.error "Invalid candidate selected!")]) :=
  malformed_candidate_rejected_as_invalid stOneClient "a" none (by decide)
    (Or.inl rfl)

theorem mapGet_foldl_zero_of_not_mem (cs : List String)
    (m : List (String × Nat)) (c : String) (h : c ∉ cs) :
    mapGet (cs.foldl (fun m k => mapSet m k 0) m) c = mapGet m c := by
  induction cs generalizing m with
  | nil => rfl
  | cons k cs ih =>
    have hk : c ≠ k := fun hc => h (hc ▸ List.mem_cons_self k cs)
    have hcs : c ∉ cs := fun hc => h (List.mem_cons_of_mem k hc)
    rw [List.foldl_cons, ih (mapSet m k 0) hcs, mapGet_mapSet_ne m 0 hk]

theorem mapGet_foldl_zero (cs : List String) (m : List (String × Nat))
    (c : String) (h : c ∈ cs) :
    mapGet (cs.foldl (fun m k => mapSet m k 0) m) c = some 0 := by
  induction cs generalizing m with
  | nil => simp at h
  | cons k cs ih =>
    rw [List.foldl_cons]
    by_cases hcs : c ∈ cs
    · exact ih (mapSet m k 0) hcs
    · have hk : c = k := ((List.mem_cons.mp h).resolve_right hcs)
      subst hk
      rw [mapGet_foldl_zero_of_not_mem cs (mapSet m c 0) c hcs,
        mapGet_mapSet_self]

/-- Claim C6 (counterexample): `initializeCandidates` performs no validation
and cannot fail: on a list with a duplicate it simply returns the map with one
zeroed entry, and on the empty list it returns the empty map — no ConfigError
exists anywhere in the code, so startup is not prevented in either case. -/
theorem initializeCandidates_no_validation :
    initializeCandidates ["X", "X"] = [("X", 0)] ∧
    initializeCandidates [] = [] := by decide

/-- Claim C6 (amended): `initializeCandidates` sets count 0 for every
candidate in the list; it checks nothing and cannot fail — there is no
ConfigError for an empty or duplicated list. The served candidate list is
hardcoded to three distinct candidates, so at startup every configured
candidate holds count 0. -/
theorem initializeCandidates_zeroes (cs : List String) (c : String)
    (h : c ∈ cs) :
    mapGet (initializeCandidates cs) c = some 0 ∧
    initialState.votes =
      [("Candidate A", 0), ("Candidate B", 0), ("Candidate C", 0)] :=
  ⟨mapGet_foldl_zero cs [] c h, by decide⟩

theorem initializeCandidates_zeroes_witness :
    mapGet (initializeCandidates ["Y", "Z"]) "Z" = some 0 ∧
    initialState.votes =
      [("Candidate A", 0), ("Candidate B", 0), ("Candidate C", 0)] :=
  initializeCandidates_zeroes ["Y", "Z"] "Z" (by decide)

/-- Claim C7: an inbound frame that cannot be decoded is handled totally
(the handler is a total function, so no crash) and without any state change:
a frame that fails to parse gets the "Invalid message format" error reply to
the originating session only, and a parsed message of unknown type gets the
"Unknown message type" error reply to the originating session only. -/
theorem undecodable_frame_safe (st : ServerState) (id : String) (msg : RawMsg)
    (h1 : msg.type ≠ some "vote") (h2 : msg.type ≠ some "request_tally") :
    onMessage st id none = (st, [(id, SMsg.error "Invalid message format")]) ∧
    onMessage st id (some msg) =
      (st, [(id, SMsg.error "Unknown message type")]) := by
  refine ⟨rfl, ?_⟩
  simp [onMessage, handleMessage, h1, h2]

theorem undecodable_frame_safe_witness :
    onMessage stOneClient "a" none =
      (stOneClient, [("a", SMsg.error "Invalid message format")]) ∧
    onMessage stOneClient "a" (some (RawMsg.mk (some "hello") none)) =
      (stOneClient, [("a", SMsg.error "Unknown message type")]) :=
  undecodable_frame_safe stOneClient "a" (RawMsg.mk (some "hello") none)
    (by decide) (by decide)

/-- Claim C8: in every reachable state, the snapshot returned by `getTally`
has exactly the configured candidates as its keys, in the original order of
the fixed candidate list — one entry per configured candidate and none for
any non-candidate. -/
theorem snapshot_preserves_candidate_order (es : List Event)
    (h : wfTrace es = true) :
    (getTally (runState initialState es)).map Prod.fst = candidates0 ∧
    (runState initialState es).candidates = candidates0 := by
  have hi := inv_trace es h
  exact ⟨hi.keys, hi.cands⟩

theorem snapshot_preserves_candidate_order_witness :
    (getTally (runState initialState voteDisconnectTrace)).map Prod.fst =
      candidates0 ∧
    (runState initialState voteDisconnectTrace).candidates = candidates0 :=
  snapshot_preserves_candidate_order voteDisconnectTrace (by decide)

/-- Claim C9: for a registered session, `request_tally` sends the current
snapshot with totalVotes to the requester only, with no state change and no
broadcast; hence processing it a second time from the resulting state gives
the identical result. -/
theorem request_tally_to_requester_only (st : ServerState) (id : String)
    (msg : RawMsg) (hty : msg.type = some "request_tally")
    (hid : id ∈ st.clients) :
    handleMessage st id msg =
      (st, [(id, SMsg.tallyUpdate (getTally st) st.votedClients.length)]) ∧
    handleMessage (handleMessage st id msg).1 id msg =
      handleMessage st id msg := by
  have hne : msg.type ≠ some "vote" := by rw [hty]; decide
  have h1 : handleMessage st id msg =
      (st, [(id, SMsg.tallyUpdate (getTally st) st.votedClients.length)]) := by
    simp [handleMessage, hne, hty, sendTallyToClient, hid]
  have hst : (handleMessage st id msg).1 = st := by rw [h1]
  exact ⟨h1, by rw [hst]⟩

theorem request_tally_to_requester_only_witness :
    handleMessage stOneClient "a" (RawMsg.mk (some "request_tally") none) =
      (stOneClient, [("a", SMsg.tallyUpdate (getTally stOneClient)
        stOneClient.votedClients.length)]) ∧
    handleMessage
        (handleMessage stOneClient "a" (RawMsg.mk (some "request_tally") none)).1
        "a" (RawMsg.mk (some "request_tally") none) =
      handleMessage stOneClient "a" (RawMsg.mk (some "request_tally") none) :=
  request_tally_to_requester_only stOneClient "a"
    (RawMsg.mk (some "request_tally") none) rfl (by decide)

/-- Claim C10: `request_tally` for a session id that is not in the client
registry performs no send, raises no fault (the handler is total), and leaves
the state unchanged. -/
theorem request_tally_unregistered_noop (st : ServerState) (id : String)
    (msg : RawMsg) (hty : msg.type = some "request_tally")
    (hid : id ∉ st.clients) :
    handleMessage st id msg = (st, []) := by
  have hne : msg.type ≠ some "vote" := by rw [hty]; decide
  simp [handleMessage, hne, hty, sendTallyToClient, hid]

theorem request_tally_unregistered_noop_witness :
    handleMessage initialState "z" (RawMsg.mk (some "request_tally") none) =
      (initialState, []) :=
  request_tally_unregistered_noop initialState "z"
    (RawMsg.mk (some "request_tally") none) rfl (by decide)

end VoteServer
